import Mathlib

/-!
Shallow embedding of the adaptive job-match scoring engine of
LLMyJobAgent: the `AIJobMatcher` class (`job_agent/ai_job_matcher.py`)
and the application-rate governor `track_application`
(`src/job_boards/base.py`).

Python floats are modelled as exact rationals (`ℚ`); Python dicts as
association lists with first-match lookup and in-place update;
`KeyError`/`ValueError`/IO exceptions as `Except String`; the file
holding a JSON snapshot as an `FSFile` value that is absent, corrupt
(raises `json.JSONDecodeError` on parse), unreadable (raises an IO
error on open), or holds a decoded value.
-/

namespace JobAgent

/-- A scraped job, as the Python dict passed around the matcher and the
rate governor.  Every field is `Option` because a Python dict may lack
the key: `job['k']` raises `KeyError` when absent, while
`job.get('k', d)` yields the default. -/
structure Job where
  id : Option String
  title : Option String
  company : Option String
  location : Option String
  url : Option String
  description : Option String
  required_skills : Option (List String)
deriving DecidableEq

/-- One entry of `resume_data['skills']`: the Python code reads
`s['skill']` from each record. -/
structure SkillRec where
  skill : String
deriving DecidableEq

/-- The parsed résumé dict: `resume_data['raw_text']` and
`resume_data['skills']` are accessed with `[]`, hence `Option`. -/
structure ResumeData where
  raw_text : Option String
  skills : Option (List SkillRec)
deriving DecidableEq

/-- Python `dict` of string keys to float weights, as an association
list: lookup returns the first binding, assignment overwrites an
existing binding in place or appends a fresh one. -/
abbrev WeightDict := List (String × ℚ)

/-- `d.get(k)` / `k in d`: first binding for `k`, if any. -/
def alookup (l : WeightDict) (k : String) : Option ℚ :=
  match l with
  | [] => none
  | (k', v) :: t => if k = k' then some v else alookup t k

/-- `d.get(k, dflt)`. -/
def agetD (l : WeightDict) (k : String) (dflt : ℚ) : ℚ :=
  (alookup l k).getD dflt

/-- `d[k] = v`: overwrite the binding for `k` when present, append
otherwise (Python dicts keep insertion order). -/
def aset (l : WeightDict) (k : String) (v : ℚ) : WeightDict :=
  match l with
  | [] => [(k, v)]
  | (k', w) :: t => if k = k' then (k, v) :: t else (k', w) :: aset t k v

/-- One application-outcome record appended by
`record_application_outcome`: `{job, success, timestamp}`. -/
structure AppOutcome where
  job : Job
  success : Bool
  timestamp : Nat
deriving DecidableEq

/-- `self.learning_data`: the JSON snapshot loaded from
`data/learning_data.json`. -/
structure LearningData where
  successful_applications : List AppOutcome
  unsuccessful_applications : List AppOutcome
  skill_weights : WeightDict
  company_preferences : WeightDict
deriving DecidableEq

/-- The default learning state built when the snapshot file does not
exist (the `else` branch of `load_learning_data`). -/
def defaultLearningData : LearningData :=
  { successful_applications := []
    unsuccessful_applications := []
    skill_weights := []
    company_preferences := [] }

/-- A file on disk holding a JSON-decodable value: missing, present
but not valid JSON, present but unreadable, or decodable to `a`. -/
inductive FSFile (α : Type) where
  | absent
  | corrupt
  | unreadable
  | valid (a : α)
deriving DecidableEq

/-- `load_learning_data`: if the file exists it is opened and parsed
with no exception handler — `json.load` on a corrupt file and an IO
error both propagate; only an absent file falls back to the default
state. -/
def load_learning_data : FSFile LearningData → Except String LearningData
  | .absent => .ok defaultLearningData
  | .corrupt => .error "json.JSONDecodeError"
  | .unreadable => .error "IOError"
  | .valid d => .ok d

/-- The clamped increment applied to one stored weight:
`w ± 0.1` then `max(0, min(1, ·))`. -/
def adjustEntry (w : ℚ) (success : Bool) : ℚ :=
  max 0 (min 1 (if success then w + 1/10 else w - 1/10))

/-- The loop body of `update_skill_weights` for one skill: insert the
0.5 default when the key is absent, add or subtract 0.1, clamp to
[0, 1]. -/
def updateOneWeight (d : WeightDict) (key : String) (success : Bool) : WeightDict :=
  let d1 := if (alookup d key).isSome then d else aset d key (1/2)
  aset d1 key (adjustEntry ((alookup d1 key).getD 0) success)

/-- `update_skill_weights(job, success)`: adjust every skill of
`job.get('required_skills', [])` in `learning_data['skill_weights']`. -/
def update_skill_weights (d : LearningData) (job : Job) (success : Bool) : LearningData :=
  { d with skill_weights :=
      ((job.required_skills.getD []).foldl (fun sw s => updateOneWeight sw s success)
        d.skill_weights) }

/-- `update_company_preferences(company, success)`. -/
def update_company_preferences (d : LearningData) (company : String) (success : Bool) :
    LearningData :=
  { d with company_preferences := updateOneWeight d.company_preferences company success }

/-- The skill loop of `calculate_job_score`: for each required skill,
read `resume_data['skills']` (raising `KeyError` when the key is
missing) and add the stored weight, default 0.5, when the skill occurs
in the résumé's skill names. -/
def skill_score_loop (d : LearningData) (resume : ResumeData) :
    List String → ℚ → Except String ℚ
  | [], acc => .ok acc
  | skill :: rest, acc =>
    match resume.skills with
    | none => .error "KeyError: skills"
    | some skills =>
      if ((skills.map SkillRec.skill).contains skill) then
        skill_score_loop d resume rest (acc + agetD d.skill_weights skill (1/2))
      else
        skill_score_loop d resume rest acc

/-- `calculate_job_score(job, resume_data)`.  The embedding composition
`cosine_similarity(encode(a), encode(b))` is abstracted as the oracle
`sim a b`; the dict accesses `job['title']`, `job['description']`,
`resume_data['raw_text']`, `resume_data['skills']` and `job['company']`
raise `KeyError` when the field is missing, in source order. -/
def calculate_job_score (sim : String → String → ℚ) (d : LearningData)
    (job : Job) (resume : ResumeData) : Except String ℚ :=
  match job.title with
  | none => .error "KeyError: title"
  | some title =>
    match job.description with
    | none => .error "KeyError: description"
    | some desc =>
      match resume.raw_text with
      | none => .error "KeyError: raw_text"
      | some resume_text =>
        let similarity_score := sim (title ++ " " ++ desc) resume_text
        match skill_score_loop d resume (job.required_skills.getD []) 0 with
        | .error e => .error e
        | .ok skill_score =>
          match job.company with
          | none => .error "KeyError: company"
          | some company =>
            let company_score := agetD d.company_preferences company (1/2)
            .ok (4/10 * similarity_score + 4/10 * skill_score + 2/10 * company_score)

/-- A job dict with the extra `'match_score'` key added by
`rank_jobs` (`{**job, 'match_score': score}`). -/
structure SJob where
  job : Job
  match_score : ℚ
deriving DecidableEq

/-- The scoring loop of `rank_jobs`: score the jobs in input order,
the first exception aborting the whole batch. -/
def annotate_loop (sim : String → String → ℚ) (d : LearningData) (resume : ResumeData) :
    List Job → Except String (List SJob)
  | [] => .ok []
  | j :: rest =>
    match calculate_job_score sim d j resume with
    | .error e => .error e
    | .ok s =>
      match annotate_loop sim d resume rest with
      | .error e => .error e
      | .ok t => .ok (⟨j, s⟩ :: t)

/-- Insertion step of the stable descending sort: `x` is placed before
the first element whose score is `≤` its own, hence after every
earlier-scored strict superior and before later equals coming from the
rest of the fold. -/
def insertDesc (x : SJob) : List SJob → List SJob
  | [] => [x]
  | y :: ys => if y.match_score ≤ x.match_score then x :: y :: ys else y :: insertDesc x ys

/-- Observable behaviour of Python's
`sorted(scored_jobs, key=lambda x: x['match_score'], reverse=True)`:
the unique stable descending sort by `match_score` (Python's sort is
stable, and `reverse=True` preserves the order of equal keys). -/
def sortDesc (l : List SJob) : List SJob :=
  l.foldr insertDesc []

/-- `rank_jobs(jobs, resume_data)`: score every job, then stably sort
descending by `match_score`. -/
def rank_jobs (sim : String → String → ℚ) (d : LearningData)
    (jobs : List Job) (resume : ResumeData) : Except String (List SJob) :=
  match annotate_loop sim d resume jobs with
  | .error e => .error e
  | .ok scored => .ok (sortDesc scored)

/-- The default of `filter_jobs`'s `min_score` parameter. -/
def default_min_score : ℚ := 6/10

/-- `filter_jobs(jobs, resume_data, min_score=0.6)`: rank, then keep
the jobs with `match_score >= min_score`. -/
def filter_jobs (sim : String → String → ℚ) (d : LearningData)
    (jobs : List Job) (resume : ResumeData) (min_score : ℚ) : Except String (List SJob) :=
  match rank_jobs sim d jobs resume with
  | .error e => .error e
  | .ok ranked => .ok (ranked.filter (fun j => decide (min_score ≤ j.match_score)))

/-- Default of `int(os.getenv("MAX_APPLICATIONS_PER_DAY", 10))`. -/
def MAX_APPLICATIONS_PER_DAY : Nat := 10

/-- One record of the per-board applications JSON file.  Records
written by `track_application` always carry all keys; `date` is
`Option Nat` (a calendar-day number) because a record read back from
disk may hold a string `datetime.fromisoformat` cannot parse, which
raises `ValueError`. -/
structure AppRecord where
  id : String
  title : String
  company : String
  location : String
  url : String
  date : Option Nat
  status : String
deriving DecidableEq

/-- The record appended by `track_application` for `job` (all its
fields were checked present), dated now. -/
def mkAppRecord (job : Job) (now : Nat) : AppRecord :=
  { id := job.id.getD ""
    title := job.title.getD ""
    company := job.company.getD ""
    location := job.location.getD ""
    url := job.url.getD ""
    date := some now
    status := "applied" }

/-- The `today_applications` list comprehension:
`datetime.fromisoformat(app["date"])` is evaluated for every record
and raises `ValueError` at the first malformed date; otherwise the
records dated today are counted. -/
def today_count_loop (now : Nat) : List AppRecord → Nat → Except String Nat
  | [], acc => .ok acc
  | a :: rest, acc =>
    match a.date with
    | none => .error "ValueError: fromisoformat"
    | some d => today_count_loop now rest (if d = now then acc + 1 else acc)

/-- The body of `track_application` inside its outer `try`.  Loading
the applications file catches only `json.JSONDecodeError` (corrupt →
`[]`); an absent file also yields `[]`; an unreadable file raises.
`job["id"]` is modelled as read up front: Python first evaluates it
inside the `any(...)` generator (or, when the log is empty, in the
record literal), and on a missing key every path ends in the same
observable outcome, `KeyError` → `(False, file unchanged)`.  Then: any
prior record with the same id → `False`; today's count at the ceiling
→ `False`; otherwise the remaining fields are read (`KeyError` when
absent) and the record is appended and the file rewritten. -/
def trackInner (now maxApps : Nat) (file : FSFile (List AppRecord)) (job : Job) :
    Except String (Bool × FSFile (List AppRecord)) :=
  match file with
  | .unreadable => .error "IOError"
  | .absent => trackLoaded now maxApps file job []
  | .corrupt => trackLoaded now maxApps file job []
  | .valid apps => trackLoaded now maxApps file job apps
where
  trackLoaded (now maxApps : Nat) (file : FSFile (List AppRecord)) (job : Job)
      (apps : List AppRecord) : Except String (Bool × FSFile (List AppRecord)) :=
    match job.id with
    | none => .error "KeyError: id"
    | some jid =>
      if apps.any (fun a => decide (a.id = jid)) then
        .ok (false, file)
      else
        match today_count_loop now apps 0 with
        | .error e => .error e
        | .ok todayCount =>
          if maxApps ≤ todayCount then
            .ok (false, file)
          else
            match job.title with
            | none => .error "KeyError: title"
            | some _ =>
              match job.company with
              | none => .error "KeyError: company"
              | some _ =>
                match job.location with
                | none => .error "KeyError: location"
                | some _ =>
                  match job.url with
                  | none => .error "KeyError: url"
                  | some _ =>
                    .ok (true, .valid (apps ++ [mkAppRecord job now]))

/-- `track_application(job)`: the whole body sits in
`try ... except Exception: return False`, so every internal exception
becomes the boolean `False` with the file left as it was. -/
def track_application (now maxApps : Nat) (file : FSFile (List AppRecord)) (job : Job) :
    Bool × FSFile (List AppRecord) :=
  match trackInner now maxApps file job with
  | .ok r => r
  | .error _ => (false, file)

/-- Repeated calls to `track_application` on one shared applications
file, returning the list of boolean results and the final file. -/
def run_track (now maxApps : Nat) :
    FSFile (List AppRecord) → List Job → List Bool × FSFile (List AppRecord)
  | file, [] => ([], file)
  | file, j :: js =>
    let r := track_application now maxApps file j
    let rest := run_track now maxApps r.2 js
    (r.1 :: rest.1, rest.2)

/-! ### Embedding similarity provider

Modelled from the spec: the provider itself is the external
`sentence-transformers` / `scikit-learn` pair, not code of this
repository.  §4.1: `embed(text)` is deterministic with fixed
dimensionality and returns the zero vector for empty text;
`similarity` is cosine similarity except that the zero-norm case is
special-cased to 0 instead of performing the division. -/

/-- Squared Euclidean norm of a vector. -/
def normSq (v : List ℚ) : ℚ :=
  (v.map (fun x => x * x)).sum

/-- Modelled from the spec: a deterministic fixed-dimension (3)
embedding returning the zero vector on empty text.  The concrete
non-empty branch stands in for the neural encoder; only determinism,
fixed length and the empty-text case are specified. -/
def embed (text : String) : List ℚ :=
  if text = "" then List.replicate 3 0
  else [(text.length : ℚ), (((text.toList.map Char.toNat).sum : Nat) : ℚ), 1]

/-- Modelled from the spec: cosine similarity with the zero-norm case
special-cased.  The normalised dot product of the non-degenerate
branch is abstracted as `f` (its value needs a real square root and is
irrelevant to the special case); when either vector has zero norm the
division is never performed and the result is 0. -/
def similarityWith (f : List ℚ → List ℚ → ℚ) (a b : List ℚ) : ℚ :=
  if normSq a = 0 ∨ normSq b = 0 then 0 else f a b

/-! ### Spec-side formulations used to state the claims -/

/-- The spec's skill-score formula: the unnormalized sum of the stored
weight (default 0.5) over the required skills that occur among the
résumé's skill names. -/
def spec_skill_score (d : LearningData) (job : Job) (resumeSkills : List String) : ℚ :=
  (((job.required_skills.getD []).filter (fun s => resumeSkills.contains s)).map
    (fun s => agetD d.skill_weights s (1/2))).sum

/-! ### Lemmas about the score calculator -/

theorem skill_score_loop_ok (d : LearningData) (resume : ResumeData)
    (skills : List SkillRec) (h : resume.skills = some skills) :
    ∀ (l : List String) (acc : ℚ),
      skill_score_loop d resume l acc =
        .ok (acc + ((l.filter (fun s => (skills.map SkillRec.skill).contains s)).map
          (fun s => agetD d.skill_weights s (1/2))).sum) := by
  intro l
  induction l with
  | nil =>
    intro acc
    simp [skill_score_loop]
  | cons skill rest ih =>
    intro acc
    by_cases hc : ((skills.map SkillRec.skill).contains skill) = true
    · rw [skill_score_loop, h]
      simp only [hc, if_true, ih, List.filter_cons, List.map_cons, List.sum_cons]
      rw [add_assoc]
    · rw [skill_score_loop, h]
      simp only [hc, if_false, Bool.false_eq_true, ih, List.filter_cons]

/-- Shared example data for concrete witnesses. -/
def exJob : Job :=
  { id := some "j1"
    title := some "Dev"
    company := some "Acme"
    location := some "Remote"
    url := some "https://x"
    description := some "python dev"
    required_skills := some ["python", "sql"] }

/-- Shared example résumé for concrete witnesses. -/
def exResume : ResumeData :=
  { raw_text := some "resume text"
    skills := some [⟨"python"⟩] }

/-- A constant similarity oracle for concrete witnesses. -/
def simHalf : String → String → ℚ := fun _ _ => 1/2

/-- C1: `calculate_job_score` returns exactly
`0.4*similarity + 0.4*skillScore + 0.2*companyScore`, where
`skillScore` is the unnormalized sum of the stored weights (default
0.5) of the required skills present among the résumé's skill names and
`companyScore` is the stored company preference (default 0.5). -/
theorem claim_C1_score_formula (sim : String → String → ℚ) (d : LearningData)
    (job : Job) (resume : ResumeData) (title desc comp rawt : String)
    (skills : List SkillRec)
    (h1 : job.title = some title) (h2 : job.description = some desc)
    (h3 : job.company = some comp) (h4 : resume.raw_text = some rawt)
    (h5 : resume.skills = some skills) :
    calculate_job_score sim d job resume =
      .ok (4/10 * sim (title ++ " " ++ desc) rawt
        + 4/10 * spec_skill_score d job (skills.map SkillRec.skill)
        + 2/10 * agetD d.company_preferences comp (1/2)) := by
  rw [calculate_job_score, h1, h2, h4,
    skill_score_loop_ok d resume skills h5 (job.required_skills.getD []) 0, h3]
  simp [spec_skill_score]

/-- C1 witness: the formula at a concrete job, résumé and store. -/
theorem claim_C1_score_formula_witness :
    exJob.title = some "Dev" ∧ exJob.description = some "python dev" ∧
    exJob.company = some "Acme" ∧ exResume.raw_text = some "resume text" ∧
    exResume.skills = some [⟨"python"⟩] ∧
    calculate_job_score simHalf defaultLearningData exJob exResume =
      .ok (4/10 * simHalf ("Dev" ++ " " ++ "python dev") "resume text"
        + 4/10 * spec_skill_score defaultLearningData exJob ["python"]
        + 2/10 * agetD defaultLearningData.company_preferences "Acme" (1/2)) :=
  ⟨rfl, rfl, rfl, rfl, rfl,
    claim_C1_score_formula simHalf defaultLearningData exJob exResume
      "Dev" "python dev" "Acme" "resume text" [⟨"python"⟩] rfl rfl rfl rfl rfl⟩

/-! ### Learning-store lemmas: lookup/update and the [0,1] invariant -/

/-- Every weight stored in the dict lies in `[0, 1]`. -/
def DictInBounds (l : WeightDict) : Prop :=
  ∀ k v, alookup l k = some v → 0 ≤ v ∧ v ≤ 1

/-- Every skill weight and company preference of the learning state
lies in `[0, 1]`. -/
def WeightsInBounds (d : LearningData) : Prop :=
  DictInBounds d.skill_weights ∧ DictInBounds d.company_preferences

/-- The read side of the learning store as the scorer uses it:
`learning_data['skill_weights'].get(skill, 0.5)` paired with the
learning state after the access.  `dict.get` does not mutate and
`calculate_job_score` performs no assignment and no save, so the state
component is the input state itself. -/
def getSkillWeight (d : LearningData) (skill : String) : ℚ × LearningData :=
  (agetD d.skill_weights skill (1/2), d)

/-- `learning_data['company_preferences'].get(company, 0.5)` paired
with the (unchanged) learning state after the access. -/
def getCompanyPreference (d : LearningData) (company : String) : ℚ × LearningData :=
  (agetD d.company_preferences company (1/2), d)

/-- One update op of the outcome feedback loop, for iterating the
adjust/clamp step an arbitrary number of times. -/
inductive UpdateOp where
  | skillOp (job : Job) (success : Bool)
  | companyOp (company : String) (success : Bool)

/-- Apply a sequence of weight updates to the learning state. -/
def applyUpdates (d : LearningData) : List UpdateOp → LearningData
  | [] => d
  | .skillOp job s :: rest => applyUpdates (update_skill_weights d job s) rest
  | .companyOp c s :: rest => applyUpdates (update_company_preferences d c s) rest

theorem adjustEntry_nonneg (w : ℚ) (s : Bool) : 0 ≤ adjustEntry w s :=
  le_max_left 0 _

theorem adjustEntry_le_one (w : ℚ) (s : Bool) : adjustEntry w s ≤ 1 :=
  max_le (by norm_num) (min_le_left 1 _)

theorem alookup_aset (l : WeightDict) (k k' : String) (v : ℚ) :
    alookup (aset l k v) k' = if k' = k then some v else alookup l k' := by
  induction l with
  | nil => simp [aset, alookup]
  | cons p t ih =>
    obtain ⟨k'', w⟩ := p
    by_cases h1 : k = k''
    · subst h1
      by_cases h2 : k' = k <;> simp [aset, alookup, h2]
    · by_cases h2 : k' = k''
      · subst h2
        have h1' : ¬k' = k := fun h => h1 h.symm
        simp [aset, alookup, h1, h1', ih]
      · simp [aset, alookup, h1, h2, ih]

theorem DictInBounds_aset (l : WeightDict) (k : String) (v : ℚ)
    (hl : DictInBounds l) (h0 : 0 ≤ v) (h1 : v ≤ 1) : DictInBounds (aset l k v) := by
  intro k' v' hv
  rw [alookup_aset] at hv
  by_cases hk : k' = k
  · simp [hk] at hv
    exact hv ▸ ⟨h0, h1⟩
  · simp [hk] at hv
    exact hl k' v' hv

theorem DictInBounds_updateOneWeight (l : WeightDict) (key : String) (s : Bool)
    (hl : DictInBounds l) : DictInBounds (updateOneWeight l key s) := by
  rw [updateOneWeight]
  apply DictInBounds_aset
  · by_cases h : (alookup l key).isSome
    · simpa [h] using hl
    · simp only [h, if_false, Bool.false_eq_true]
      exact DictInBounds_aset l key (1/2) hl (by norm_num) (by norm_num)
  · exact adjustEntry_nonneg _ _
  · exact adjustEntry_le_one _ _

theorem DictInBounds_foldl (skills : List String) (s : Bool) :
    ∀ l : WeightDict, DictInBounds l →
      DictInBounds (skills.foldl (fun sw sk => updateOneWeight sw sk s) l) := by
  induction skills with
  | nil => intro l hl; simpa using hl
  | cons sk rest ih =>
    intro l hl
    simpa using ih _ (DictInBounds_updateOneWeight l sk s hl)

theorem WeightsInBounds_update_skill_weights (d : LearningData) (job : Job) (s : Bool)
    (hd : WeightsInBounds d) : WeightsInBounds (update_skill_weights d job s) :=
  ⟨DictInBounds_foldl _ s d.skill_weights hd.1, hd.2⟩

theorem WeightsInBounds_update_company_preferences (d : LearningData) (c : String) (s : Bool)
    (hd : WeightsInBounds d) : WeightsInBounds (update_company_preferences d c s) :=
  ⟨hd.1, DictInBounds_updateOneWeight d.company_preferences c s hd.2⟩

/-- C5: starting from a state whose stored weights all lie in [0, 1],
one skill-weight update, one company-preference update, and any
sequence (any number N) of such adjust/clamp updates leave every
stored skill weight and company preference in [0, 1]. -/
theorem claim_C5_weights_clamped (d : LearningData) (hd : WeightsInBounds d) :
    (∀ job s, WeightsInBounds (update_skill_weights d job s)) ∧
    (∀ c s, WeightsInBounds (update_company_preferences d c s)) ∧
    (∀ ops : List UpdateOp, WeightsInBounds (applyUpdates d ops)) := by
  refine ⟨fun job s => WeightsInBounds_update_skill_weights d job s hd,
    fun c s => WeightsInBounds_update_company_preferences d c s hd, ?_⟩
  intro ops
  induction ops generalizing d with
  | nil => simpa [applyUpdates] using hd
  | cons op rest ih =>
    cases op with
    | skillOp job s =>
      exact ih _ (WeightsInBounds_update_skill_weights d job s hd)
    | companyOp c s =>
      exact ih _ (WeightsInBounds_update_company_preferences d c s hd)

theorem defaultLearningData_in_bounds : WeightsInBounds defaultLearningData := by
  constructor <;> intro k v hv <;> simp [defaultLearningData, alookup] at hv

/-- C5 witness: the invariant holds concretely after a success update
and a failure update from the default state. -/
theorem claim_C5_weights_clamped_witness :
    WeightsInBounds defaultLearningData ∧
    WeightsInBounds (applyUpdates defaultLearningData
      [.skillOp exJob true, .companyOp "Acme" false]) :=
  ⟨defaultLearningData_in_bounds,
    (claim_C5_weights_clamped defaultLearningData defaultLearningData_in_bounds).2.2 _⟩

/-- C6 counterexample: looking up a never-stored skill returns 0.5,
but the access does not persist the default — the store coming out of
the access still has no entry for the key (and the first *update* of a
fresh skill stores 0.6, not 0.5).  This contradicts "the first access
persists that default value 0.5 into the Learning Store". -/
theorem claim_C6_counterexample :
    (getSkillWeight defaultLearningData "python").1 = 1/2 ∧
    alookup (getSkillWeight defaultLearningData "python").2.skill_weights "python" = none ∧
    (getCompanyPreference defaultLearningData "Acme").1 = 1/2 ∧
    alookup (getCompanyPreference defaultLearningData "Acme").2.company_preferences
      "Acme" = none ∧
    alookup (update_skill_weights defaultLearningData exJob true).skill_weights
      "python" = some (6/10) := by
  refine ⟨rfl, rfl, rfl, rfl, ?_⟩
  norm_num [update_skill_weights, defaultLearningData, exJob, updateOneWeight,
    alookup, aset, adjustEntry]

/-- C6 amended: looking up a never-stored skill or company returns
exactly 0.5 and leaves the learning state unchanged; the default is
not persisted by the access. -/
theorem claim_C6_default_weight (d : LearningData) (skill company : String)
    (hs : alookup d.skill_weights skill = none)
    (hc : alookup d.company_preferences company = none) :
    getSkillWeight d skill = (1/2, d) ∧ getCompanyPreference d company = (1/2, d) := by
  constructor <;> simp [getSkillWeight, getCompanyPreference, agetD, hs, hc]

/-- C6 amended witness: the default lookups at the empty store. -/
theorem claim_C6_default_weight_witness :
    alookup defaultLearningData.skill_weights "python" = none ∧
    getSkillWeight defaultLearningData "python" = (1/2, defaultLearningData) ∧
    getCompanyPreference defaultLearningData "Acme" = (1/2, defaultLearningData) :=
  ⟨rfl,
    (claim_C6_default_weight defaultLearningData "python" "Acme" rfl rfl).1,
    (claim_C6_default_weight defaultLearningData "python" "Acme" rfl rfl).2⟩

/-- C8: the spec-modelled provider embeds empty text to the zero
vector, and similarity is special-cased to 0 whenever either argument
has zero norm — the cosine division `f` is never consulted there, so
no zero-denominator division occurs. -/
theorem claim_C8_zero_vector_similarity :
    embed "" = List.replicate 3 0 ∧ normSq (embed "") = 0 ∧
    (∀ (f : List ℚ → List ℚ → ℚ) (a b : List ℚ),
      normSq a = 0 ∨ normSq b = 0 → similarityWith f a b = 0) := by
  refine ⟨by simp [embed], by simp [embed, normSq], ?_⟩
  intro f a b h
  simp [similarityWith, h]

/-- C8 witness: similarity of the embedded empty text against a
nonzero vector is 0. -/
theorem claim_C8_zero_vector_similarity_witness :
    (normSq (embed "") = 0 ∨ normSq [(1 : ℚ)] = 0) ∧
    similarityWith (fun _ _ => 1) (embed "") [(1 : ℚ)] = 0 :=
  ⟨Or.inl claim_C8_zero_vector_similarity.2.1,
    claim_C8_zero_vector_similarity.2.2 (fun _ _ => 1) (embed "") [(1 : ℚ)]
      (Or.inl claim_C8_zero_vector_similarity.2.1)⟩

/-- C9 counterexample: `load_learning_data` on a corrupt store file
propagates the parse error instead of falling back to the default
state — there is no exception handler around `json.load`. -/
theorem claim_C9_counterexample :
    load_learning_data .corrupt = .error "json.JSONDecodeError" ∧
    load_learning_data .corrupt ≠ .ok defaultLearningData := by
  exact ⟨rfl, by simp [load_learning_data]⟩

/-- C9 amended: the fallback to the default empty state happens only
when the store file is absent; a present file is parsed as-is, and a
corrupt or unreadable file raises (blocking startup) rather than
falling back. -/
theorem claim_C9_load_fallback :
    load_learning_data .absent = .ok defaultLearningData ∧
    (∀ d, load_learning_data (.valid d) = .ok d) ∧
    load_learning_data .corrupt = .error "json.JSONDecodeError" ∧
    load_learning_data .unreadable = .error "IOError" :=
  ⟨rfl, fun _ => rfl, rfl, rfl⟩

/-! ### Ranking: permutation, descending order, stability -/

/-- The Boolean test "this scored job carries score `q`", used to state
stability: a stable sort preserves the relative order of the jobs of
any fixed score. -/
def scoreIs (q : ℚ) (j : SJob) : Bool := decide (j.match_score = q)

/-- The descending comparison `rank_jobs` sorts by. -/
def descBy (a b : SJob) : Prop := b.match_score ≤ a.match_score

theorem insertDesc_perm (x : SJob) (l : List SJob) : (insertDesc x l).Perm (x :: l) := by
  induction l with
  | nil => simp [insertDesc]
  | cons y ys ih =>
    by_cases hle : y.match_score ≤ x.match_score
    · simp [insertDesc, hle]
    · simp only [insertDesc, hle, if_false, Bool.false_eq_true]
      exact (ih.cons y).trans (List.Perm.swap x y ys)

theorem sortDesc_perm (l : List SJob) : (sortDesc l).Perm l := by
  induction l with
  | nil => simp [sortDesc]
  | cons x xs ih =>
    have h1 : sortDesc (x :: xs) = insertDesc x (sortDesc xs) := rfl
    rw [h1]
    exact (insertDesc_perm x (sortDesc xs)).trans (ih.cons x)

theorem mem_insertDesc {z x : SJob} {l : List SJob} (h : z ∈ insertDesc x l) :
    z = x ∨ z ∈ l := by
  have h' := (insertDesc_perm x l).mem_iff.mp h
  simpa using h'

theorem insertDesc_sorted (x : SJob) (l : List SJob) (hl : l.Pairwise descBy) :
    (insertDesc x l).Pairwise descBy := by
  induction l with
  | nil => simp [insertDesc, List.Pairwise]
  | cons y ys ih =>
    rcases List.pairwise_cons.mp hl with ⟨hy, hys⟩
    by_cases hle : y.match_score ≤ x.match_score
    · simp only [insertDesc, hle, if_true]
      refine List.pairwise_cons.mpr ⟨?_, hl⟩
      intro z hz
      rcases List.mem_cons.mp hz with hz | hz
      · exact hz ▸ hle
      · exact le_trans (hy z hz) hle
    · simp only [insertDesc, hle, if_false, Bool.false_eq_true]
      refine List.pairwise_cons.mpr ⟨?_, ih hys⟩
      intro z hz
      rcases mem_insertDesc hz with hz | hz
      · exact hz ▸ le_of_lt (lt_of_not_le hle)
      · exact hy z hz

theorem sortDesc_sorted (l : List SJob) : (sortDesc l).Pairwise descBy := by
  induction l with
  | nil => simp [sortDesc]
  | cons x xs ih => exact insertDesc_sorted x (sortDesc xs) ih

theorem insertDesc_filter (q : ℚ) (x : SJob) (l : List SJob) :
    (insertDesc x l).filter (scoreIs q) =
      if x.match_score = q then x :: l.filter (scoreIs q)
      else l.filter (scoreIs q) := by
  induction l with
  | nil => by_cases h : x.match_score = q <;> simp [insertDesc, scoreIs, h]
  | cons y ys ih =>
    have hins : insertDesc x (y :: ys) =
        if y.match_score ≤ x.match_score then x :: y :: ys
        else y :: insertDesc x ys := rfl
    by_cases hle : y.match_score ≤ x.match_score
    · rw [hins, if_pos hle]
      by_cases h : x.match_score = q <;> simp [List.filter_cons, scoreIs, h]
    · have hlt : x.match_score < y.match_score := lt_of_not_le hle
      rw [hins, if_neg hle, List.filter_cons]
      by_cases h : x.match_score = q
      · have hy : ¬y.match_score = q := by
          rw [← h]; exact ne_of_gt hlt
        simp [List.filter_cons, scoreIs, h, hy, ih]
      · by_cases hy : y.match_score = q <;>
          simp [List.filter_cons, scoreIs, h, hy, ih]

theorem sortDesc_filter (q : ℚ) (l : List SJob) :
    (sortDesc l).filter (scoreIs q) = l.filter (scoreIs q) := by
  induction l with
  | nil => simp [sortDesc]
  | cons x xs ih =>
    have h1 : sortDesc (x :: xs) = insertDesc x (sortDesc xs) := rfl
    rw [h1, insertDesc_filter]
    by_cases h : x.match_score = q <;> simp [List.filter_cons, scoreIs, h, ih]

theorem annotate_loop_spec (sim : String → String → ℚ) (d : LearningData)
    (resume : ResumeData) :
    ∀ (jobs : List Job) (scored : List SJob),
      annotate_loop sim d resume jobs = .ok scored →
      scored.map SJob.job = jobs ∧
      ∀ sj ∈ scored, calculate_job_score sim d sj.job resume = .ok sj.match_score := by
  intro jobs
  induction jobs with
  | nil =>
    intro scored h
    simp only [annotate_loop] at h
    cases h
    simp
  | cons j rest ih =>
    intro scored h
    simp only [annotate_loop] at h
    cases hj : calculate_job_score sim d j resume with
    | error e => rw [hj] at h; cases h
    | ok s =>
      rw [hj] at h
      cases hr : annotate_loop sim d resume rest with
      | error e => rw [hr] at h; cases h
      | ok t =>
        rw [hr] at h
        cases h
        rcases ih t hr with ⟨hmap, hall⟩
        refine ⟨by simp [hmap], ?_⟩
        intro sj hsj
        rcases List.mem_cons.mp hsj with hsj | hsj
        · subst hsj; exact hj
        · exact hall sj hsj

/-- C2: when scoring succeeds, `rank_jobs` returns the stable
descending sort of the input jobs annotated with their scores: the
annotation keeps the jobs and input order, the output is a permutation
of the annotated input, it is sorted descending by `match_score`, and
for every score value the jobs carrying it appear in the same order as
in the input (stability). -/
theorem claim_C2_rank_sorted_stable (sim : String → String → ℚ) (d : LearningData)
    (resume : ResumeData) (jobs : List Job) (scored : List SJob)
    (h : annotate_loop sim d resume jobs = .ok scored) :
    rank_jobs sim d jobs resume = .ok (sortDesc scored) ∧
    scored.map SJob.job = jobs ∧
    (∀ sj ∈ scored, calculate_job_score sim d sj.job resume = .ok sj.match_score) ∧
    (sortDesc scored).Perm scored ∧
    (sortDesc scored).Pairwise descBy ∧
    (∀ q : ℚ, (sortDesc scored).filter (scoreIs q) = scored.filter (scoreIs q)) := by
  rcases annotate_loop_spec sim d resume jobs scored h with ⟨hmap, hall⟩
  exact ⟨by rw [rank_jobs, h], hmap, hall, sortDesc_perm scored,
    sortDesc_sorted scored, fun q => sortDesc_filter q scored⟩

/-- C2 witness: ranking one concrete job. -/
theorem claim_C2_rank_sorted_stable_witness :
    annotate_loop simHalf defaultLearningData exResume [exJob] = .ok [⟨exJob, 1/2⟩] ∧
    (rank_jobs simHalf defaultLearningData [exJob] exResume =
        .ok (sortDesc [⟨exJob, 1/2⟩]) ∧
      ([(⟨exJob, 1/2⟩ : SJob)].map SJob.job = [exJob]) ∧
      (∀ sj ∈ [(⟨exJob, 1/2⟩ : SJob)],
        calculate_job_score simHalf defaultLearningData sj.job exResume =
          .ok sj.match_score) ∧
      (sortDesc [⟨exJob, 1/2⟩]).Perm [⟨exJob, 1/2⟩] ∧
      (sortDesc [⟨exJob, 1/2⟩]).Pairwise descBy ∧
      (∀ q : ℚ, (sortDesc [⟨exJob, 1/2⟩]).filter (scoreIs q) =
        [(⟨exJob, 1/2⟩ : SJob)].filter (scoreIs q))) := by
  have h : annotate_loop simHalf defaultLearningData exResume [exJob] =
      .ok [⟨exJob, 1/2⟩] := by
    norm_num [annotate_loop, calculate_job_score, skill_score_loop, exJob, exResume,
      simHalf, defaultLearningData, agetD, alookup,
      show ("sql" : String) ≠ "python" by decide]
  exact ⟨h, claim_C2_rank_sorted_stable simHalf defaultLearningData exResume
    [exJob] [⟨exJob, 1/2⟩] h⟩

/-- C3: `filter_jobs` returns exactly the jobs of `rank_jobs`'s output
whose `match_score` is at least `min_score`, as a subsequence of that
output, and every returned job satisfies the threshold. -/
theorem claim_C3_filter_threshold (sim : String → String → ℚ) (d : LearningData)
    (resume : ResumeData) (jobs : List Job) (ranked : List SJob) (min_score : ℚ)
    (h : rank_jobs sim d jobs resume = .ok ranked) :
    filter_jobs sim d jobs resume min_score =
      .ok (ranked.filter (fun j => decide (min_score ≤ j.match_score))) ∧
    (ranked.filter (fun j => decide (min_score ≤ j.match_score))).Sublist ranked ∧
    (∀ j, j ∈ ranked.filter (fun j => decide (min_score ≤ j.match_score)) ↔
      j ∈ ranked ∧ min_score ≤ j.match_score) ∧
    (∀ j ∈ ranked.filter (fun j => decide (min_score ≤ j.match_score)),
      min_score ≤ j.match_score) := by
  refine ⟨by rw [filter_jobs, h], List.filter_sublist ranked, ?_, ?_⟩
  · intro j
    simp [List.mem_filter]
  · intro j hj
    exact ((List.mem_filter.mp hj).2 : decide (min_score ≤ j.match_score) = true)
      |> of_decide_eq_true

/-- C3 witness: filtering the concrete one-job ranking at the default
threshold 0.6 (the job scores 0.5 and is dropped). -/
theorem claim_C3_filter_threshold_witness :
    rank_jobs simHalf defaultLearningData [exJob] exResume = .ok [⟨exJob, 1/2⟩] ∧
    (filter_jobs simHalf defaultLearningData [exJob] exResume default_min_score =
        .ok ([(⟨exJob, 1/2⟩ : SJob)].filter
          (fun j => decide (default_min_score ≤ j.match_score))) ∧
      ([(⟨exJob, 1/2⟩ : SJob)].filter
        (fun j => decide (default_min_score ≤ j.match_score))).Sublist
        [(⟨exJob, 1/2⟩ : SJob)] ∧
      (∀ j, j ∈ [(⟨exJob, 1/2⟩ : SJob)].filter
          (fun j => decide (default_min_score ≤ j.match_score)) ↔
        j ∈ [(⟨exJob, 1/2⟩ : SJob)] ∧ default_min_score ≤ j.match_score) ∧
      (∀ j ∈ [(⟨exJob, 1/2⟩ : SJob)].filter
          (fun j => decide (default_min_score ≤ j.match_score)),
        default_min_score ≤ j.match_score)) := by
  have h : rank_jobs simHalf defaultLearningData [exJob] exResume =
      .ok [⟨exJob, 1/2⟩] := by
    norm_num [rank_jobs, annotate_loop, calculate_job_score, skill_score_loop, exJob,
      exResume, simHalf, defaultLearningData, agetD, alookup, sortDesc, insertDesc,
      show ("sql" : String) ≠ "python" by decide]
  exact ⟨h, claim_C3_filter_threshold simHalf defaultLearningData exResume
    [exJob] [⟨exJob, 1/2⟩] default_min_score h⟩

/-! ### Missing-field behaviour of the score calculator (C7) -/

/-- A résumé dict without the `'skills'` key. -/
def exResumeNoSkills : ResumeData :=
  { raw_text := some "resume text", skills := none }

/-- A job dict without the `'title'` key. -/
def exJobNoTitle : Job :=
  { exJob with title := none }

/-- A job dict without the `'required_skills'` key. -/
def exJobNoSkills : Job :=
  { exJob with required_skills := none }

theorem annotate_loop_error (sim : String → String → ℚ) (d : LearningData)
    (resume : ResumeData) :
    ∀ (jobs : List Job) (j : Job) (e : String), j ∈ jobs →
      calculate_job_score sim d j resume = .error e →
      ∃ e2, annotate_loop sim d resume jobs = .error e2 := by
  intro jobs
  induction jobs with
  | nil => intro j e hj _; cases hj
  | cons k rest ih =>
    intro j e hj he
    cases hk : calculate_job_score sim d k resume with
    | error e2 => exact ⟨e2, by rw [annotate_loop, hk]⟩
    | ok s =>
      rcases List.mem_cons.mp hj with hj | hj
      · rw [hj, hk] at he; cases he
      · rcases ih j e hj he with ⟨e2, h2⟩
        exact ⟨e2, by rw [annotate_loop, hk, h2]⟩

/-- C7 counterexample: a résumé missing its skills list makes
`calculate_job_score` raise `KeyError` (it is not treated as an empty
set), and one job missing its title makes `rank_jobs` abort the whole
batch — the well-formed second job is never ranked. -/
theorem claim_C7_counterexample :
    calculate_job_score simHalf defaultLearningData exJob exResumeNoSkills =
      .error "KeyError: skills" ∧
    rank_jobs simHalf defaultLearningData [exJobNoTitle, exJob] exResume =
      .error "KeyError: title" :=
  ⟨rfl, rfl⟩

/-- C7 amended: a job without the `required_skills` key scores with
`skillScore = 0`; but a résumé without its skills list raises
`KeyError` as soon as a required skill is examined, and any job whose
scoring raises aborts ranking of the whole batch. -/
theorem claim_C7_missing_fields (sim : String → String → ℚ) (d : LearningData)
    (job : Job) (resume : ResumeData) (title desc comp rawt : String)
    (h1 : job.title = some title) (h2 : job.description = some desc)
    (h3 : job.company = some comp) (h4 : resume.raw_text = some rawt) :
    (job.required_skills = none →
      calculate_job_score sim d job resume =
        .ok (4/10 * sim (title ++ " " ++ desc) rawt + 4/10 * 0
          + 2/10 * agetD d.company_preferences comp (1/2))) ∧
    (∀ s rest, job.required_skills = some (s :: rest) → resume.skills = none →
      calculate_job_score sim d job resume = .error "KeyError: skills") ∧
    (∀ (jobs : List Job) (j : Job) (e : String), j ∈ jobs →
      calculate_job_score sim d j resume = .error e →
      ∃ e2, rank_jobs sim d jobs resume = .error e2) := by
  refine ⟨?_, ?_, ?_⟩
  · intro hn
    rw [calculate_job_score, h1, h2, h4, hn]
    simp [skill_score_loop, h3, mul_zero]
  · intro s rest hro hsk
    rw [calculate_job_score, h1, h2, h4, hro]
    simp [skill_score_loop, hsk]
  · intro jobs j e hj he
    rcases annotate_loop_error sim d resume jobs j e hj he with ⟨e2, h2⟩
    exact ⟨e2, by rw [rank_jobs, h2]⟩

/-- C7 amended witness: the job without `required_skills` scores with
zero skill term; the skills-less résumé raises; the malformed job
aborts the concrete two-job batch. -/
theorem claim_C7_missing_fields_witness :
    exJobNoSkills.title = some "Dev" ∧ exJobNoSkills.required_skills = none ∧
    calculate_job_score simHalf defaultLearningData exJobNoSkills exResume =
      .ok (4/10 * simHalf ("Dev" ++ " " ++ "python dev") "resume text" + 4/10 * 0
        + 2/10 * agetD defaultLearningData.company_preferences "Acme" (1/2)) ∧
    calculate_job_score simHalf defaultLearningData exJob exResumeNoSkills =
      .error "KeyError: skills" ∧
    (∃ e2, rank_jobs simHalf defaultLearningData [exJobNoTitle, exJob] exResume =
      .error e2) := by
  refine ⟨rfl, rfl, ?_, ?_, ?_⟩
  · exact (claim_C7_missing_fields simHalf defaultLearningData exJobNoSkills exResume
      "Dev" "python dev" "Acme" "resume text" rfl rfl rfl rfl).1 rfl
  · exact (claim_C7_missing_fields simHalf defaultLearningData exJob exResumeNoSkills
      "Dev" "python dev" "Acme" "resume text" rfl rfl rfl rfl).2.1 "python" ["sql"] rfl rfl
  · exact (claim_C7_missing_fields simHalf defaultLearningData exJob exResume
      "Dev" "python dev" "Acme" "resume text" rfl rfl rfl rfl).2.2
      [exJobNoTitle, exJob] exJobNoTitle "KeyError: title" (by simp) rfl

/-! ### Application-rate governor lemmas (C4, C10) -/

/-- The number of log records dated `now`: the value of the
`today_applications` comprehension on a log whose dates all parse. -/
def countToday (now : Nat) (log : List AppRecord) : Nat :=
  (log.filter (fun a => decide (a.date = some now))).length

/-- A job dict carrying every key `track_application` reads. -/
def WFJob (j : Job) : Prop :=
  j.id.isSome ∧ j.title.isSome ∧ j.company.isSome ∧ j.location.isSome ∧ j.url.isSome

theorem today_count_loop_ok (now : Nat) :
    ∀ (log : List AppRecord), (∀ a ∈ log, (a.date).isSome) →
      ∀ acc, today_count_loop now log acc = .ok (acc + countToday now log) := by
  intro log
  induction log with
  | nil => intro _ acc; simp [today_count_loop, countToday]
  | cons a rest ih =>
    intro h acc
    rcases Option.isSome_iff_exists.mp (h a (List.mem_cons_self a rest)) with ⟨d, hd⟩
    have hrest := fun b hb => h b (List.mem_cons_of_mem a hb)
    by_cases hdn : d = now
    · subst hdn
      rw [today_count_loop, hd]
      simp only [if_pos rfl, ih hrest]
      simp [countToday, List.filter_cons, hd]
      omega
    · rw [today_count_loop, hd]
      simp only [if_neg hdn, ih hrest]
      have : ¬a.date = some now := by
        rw [hd]; simp; exact hdn
      simp [countToday, List.filter_cons, this]

theorem today_count_loop_error (now : Nat) :
    ∀ (log : List AppRecord), (∃ a ∈ log, a.date = none) →
      ∀ acc, ∃ e, today_count_loop now log acc = .error e := by
  intro log
  induction log with
  | nil => rintro ⟨a, ha, _⟩; cases ha
  | cons a rest ih =>
    rintro ⟨b, hb, hbnone⟩ acc
    cases hd : a.date with
    | none => exact ⟨"ValueError: fromisoformat", by rw [today_count_loop, hd]⟩
    | some d =>
      rcases List.mem_cons.mp hb with hb | hb
      · rw [hb, hd] at hbnone; cases hbnone
      · rcases ih ⟨b, hb, hbnone⟩ (if d = now then acc + 1 else acc) with ⟨e, he⟩
        exact ⟨e, by rw [today_count_loop, hd]; exact he⟩

theorem countToday_all (now : Nat) (log : List AppRecord)
    (h : ∀ a ∈ log, a.date = some now) : countToday now log = log.length := by
  unfold countToday
  rw [List.filter_length_eq_length.mpr]
  intro a ha
  simp [h a ha]

theorem track_dup (now maxApps : Nat) (log : List AppRecord) (job : Job) (jid : String)
    (hid : job.id = some jid)
    (hdup : log.any (fun a => decide (a.id = jid)) = true) :
    track_application now maxApps (.valid log) job = (false, .valid log) := by
  simp [track_application, trackInner, trackInner.trackLoaded, hid, hdup]

theorem track_ceiling (now maxApps : Nat) (log : List AppRecord) (job : Job) (jid : String)
    (hid : job.id = some jid)
    (hdup : log.any (fun a => decide (a.id = jid)) = false)
    (hdates : ∀ a ∈ log, (a.date).isSome)
    (hmax : maxApps ≤ countToday now log) :
    track_application now maxApps (.valid log) job = (false, .valid log) := by
  have hloop := today_count_loop_ok now log hdates 0
  rw [Nat.zero_add] at hloop
  simp [track_application, trackInner, trackInner.trackLoaded, hid, hdup, hloop, hmax]

theorem track_append (now maxApps : Nat) (log : List AppRecord) (job : Job)
    (jid t c lo u : String)
    (hid : job.id = some jid) (ht : job.title = some t) (hc : job.company = some c)
    (hlo : job.location = some lo) (hu : job.url = some u)
    (hdup : log.any (fun a => decide (a.id = jid)) = false)
    (hdates : ∀ a ∈ log, (a.date).isSome)
    (hlt : countToday now log < maxApps) :
    track_application now maxApps (.valid log) job =
      (true, .valid (log ++ [mkAppRecord job now])) := by
  have hloop := today_count_loop_ok now log hdates 0
  rw [Nat.zero_add] at hloop
  have hnle : ¬maxApps ≤ countToday now log := Nat.not_le_of_lt hlt
  simp [track_application, trackInner, trackInner.trackLoaded, hid, hdup, hloop, hnle,
    ht, hc, hlo, hu]

theorem trackLoaded_true (now maxApps : Nat) (file : FSFile (List AppRecord)) (job : Job)
    (apps : List AppRecord) (f2 : FSFile (List AppRecord))
    (h : trackInner.trackLoaded now maxApps file job apps = .ok (true, f2)) :
    f2 = .valid (apps ++ [mkAppRecord job now]) := by
  cases hid : job.id with
  | none => simp [trackInner.trackLoaded, hid] at h
  | some jid =>
    by_cases hdup : apps.any (fun a => decide (a.id = jid)) = true
    · simp [trackInner.trackLoaded, hid, hdup] at h
    · cases htc : today_count_loop now apps 0 with
      | error e => simp [trackInner.trackLoaded, hid, hdup, htc] at h
      | ok n =>
        by_cases hceil : maxApps ≤ n
        · simp [trackInner.trackLoaded, hid, hdup, htc, hceil] at h
        · cases ht : job.title with
          | none => simp [trackInner.trackLoaded, hid, hdup, htc, hceil, ht] at h
          | some t =>
            cases hc : job.company with
            | none => simp [trackInner.trackLoaded, hid, hdup, htc, hceil, ht, hc] at h
            | some c =>
              cases hlo : job.location with
              | none =>
                simp [trackInner.trackLoaded, hid, hdup, htc, hceil, ht, hc, hlo] at h
              | some lo =>
                cases hu : job.url with
                | none =>
                  simp [trackInner.trackLoaded, hid, hdup, htc, hceil, ht, hc, hlo, hu] at h
                | some u =>
                  simp [trackInner.trackLoaded, hid, hdup, htc, hceil, ht, hc, hlo, hu] at h
                  exact h.symm

theorem track_true_inner (now maxApps : Nat) (file : FSFile (List AppRecord)) (job : Job)
    (h : (track_application now maxApps file job).1 = true) :
    trackInner now maxApps file job = .ok (track_application now maxApps file job) := by
  cases hti : trackInner now maxApps file job with
  | error e => rw [track_application, hti] at h ⊢; cases h
  | ok r => rw [track_application, hti]

theorem track_true_valid (now maxApps : Nat) (file : FSFile (List AppRecord)) (job : Job)
    (h : (track_application now maxApps file job).1 = true) :
    ∃ apps, (track_application now maxApps file job).2 =
      .valid (apps ++ [mkAppRecord job now]) := by
  have hti := track_true_inner now maxApps file job h
  cases file with
  | unreadable => rw [trackInner] at hti; cases hti
  | absent =>
    refine ⟨[], ?_⟩
    rw [trackInner] at hti
    have hpair : track_application now maxApps .absent job =
        (true, (track_application now maxApps .absent job).2) := by
      rw [← h]
    exact trackLoaded_true now maxApps .absent job []
      (track_application now maxApps .absent job).2 (hpair ▸ hti)
  | corrupt =>
    refine ⟨[], ?_⟩
    rw [trackInner] at hti
    have hpair : track_application now maxApps .corrupt job =
        (true, (track_application now maxApps .corrupt job).2) := by
      rw [← h]
    exact trackLoaded_true now maxApps .corrupt job []
      (track_application now maxApps .corrupt job).2 (hpair ▸ hti)
  | valid apps =>
    refine ⟨apps, ?_⟩
    rw [trackInner] at hti
    have hpair : track_application now maxApps (.valid apps) job =
        (true, (track_application now maxApps (.valid apps) job).2) := by
      rw [← h]
    exact trackLoaded_true now maxApps (.valid apps) job apps
      (track_application now maxApps (.valid apps) job).2 (hpair ▸ hti)

theorem run_track_count (now maxApps : Nat) :
    ∀ (js : List Job) (L : List AppRecord),
      (∀ a ∈ L, a.date = some now) →
      (∀ j ∈ js, WFJob j) →
      ((js.map Job.id).Nodup) →
      (∀ j ∈ js, ∀ a ∈ L, some a.id ≠ j.id) →
      (run_track now maxApps (.valid L) js).1.count true =
        min js.length (maxApps - L.length) := by
  intro js
  induction js with
  | nil => intro L _ _ _ _; simp [run_track]
  | cons j js ih =>
    intro L hLdate hwf hnd hfresh
    rcases hwf j (List.mem_cons_self j js) with ⟨hid, ht, hc, hlo, hu⟩
    rcases Option.isSome_iff_exists.mp hid with ⟨jid, hjid⟩
    rcases Option.isSome_iff_exists.mp ht with ⟨t, hjt⟩
    rcases Option.isSome_iff_exists.mp hc with ⟨c, hjc⟩
    rcases Option.isSome_iff_exists.mp hlo with ⟨lo, hjlo⟩
    rcases Option.isSome_iff_exists.mp hu with ⟨u, hju⟩
    have hdupF : L.any (fun a => decide (a.id = jid)) = false := by
      rw [List.any_eq_false]
      intro a ha
      have := hfresh j (List.mem_cons_self j js) a ha
      rw [hjid] at this
      simp at this ⊢
      exact this
    have hdatesS : ∀ a ∈ L, (a.date).isSome := by
      intro a ha; rw [hLdate a ha]; rfl
    have hcount : countToday now L = L.length := countToday_all now L hLdate
    have hwf2 : ∀ j2 ∈ js, WFJob j2 := fun j2 h2 => hwf j2 (List.mem_cons_of_mem j h2)
    have hnd2 : (js.map Job.id).Nodup := by
      rw [List.map_cons] at hnd; exact hnd.of_cons
    by_cases hceil : maxApps ≤ L.length
    · have htrack : track_application now maxApps (.valid L) j = (false, .valid L) :=
        track_ceiling now maxApps L j jid hjid hdupF hdatesS (hcount ▸ hceil)
      have hfresh2 : ∀ j2 ∈ js, ∀ a ∈ L, some a.id ≠ j2.id :=
        fun j2 h2 => hfresh j2 (List.mem_cons_of_mem j h2)
      have hrest := ih L hLdate hwf2 hnd2 hfresh2
      have hz : maxApps - L.length = 0 := Nat.sub_eq_zero_of_le hceil
      simp only [run_track, htrack]
      simp [List.count_cons, hrest, hz]
    · have hlt : countToday now L < maxApps := by omega
      have htrack : track_application now maxApps (.valid L) j =
          (true, .valid (L ++ [mkAppRecord j now])) :=
        track_append now maxApps L j jid t c lo u hjid hjt hjc hjlo hju hdupF hdatesS hlt
      have hrecid : (mkAppRecord j now).id = jid := by
        simp [mkAppRecord, hjid]
      have hLdate2 : ∀ a ∈ L ++ [mkAppRecord j now], a.date = some now := by
        intro a ha
        rcases List.mem_append.mp ha with ha | ha
        · exact hLdate a ha
        · rcases List.mem_singleton.mp ha with rfl
          rfl
      have hjnotin : ∀ j2 ∈ js, j2.id ≠ j.id := by
        rw [List.map_cons] at hnd
        intro j2 h2 heq
        exact (List.pairwise_cons.mp hnd).1 j2.id (List.mem_map_of_mem Job.id h2) heq.symm
      have hfresh2 : ∀ j2 ∈ js, ∀ a ∈ L ++ [mkAppRecord j now], some a.id ≠ j2.id := by
        intro j2 h2 a ha
        rcases List.mem_append.mp ha with ha | ha
        · exact hfresh j2 (List.mem_cons_of_mem j h2) a ha
        · rcases List.mem_singleton.mp ha with rfl
          rw [hrecid, ← hjid]
          exact fun heq => hjnotin j2 h2 heq.symm
      have hrest := ih (L ++ [mkAppRecord j now]) hLdate2 hwf2 hnd2 hfresh2
      have hlen2 : (L ++ [mkAppRecord j now]).length = L.length + 1 := by simp
      rw [hlen2] at hrest
      have hLl : L.length < maxApps := hcount ▸ hlt
      simp only [run_track, htrack]
      simp [List.count_cons, hrest]
      omega

/-- C4: on a well-formed log, `track_application` returns `False` and
leaves the log unchanged when the job id occurs anywhere in the log
(any day) or when today's record count has reached the ceiling;
otherwise it returns `True` and appends exactly one record.
Consequently a second call with the same id returns `False`, and
`maxApps + 1` calls with distinct ids on one day return `True` exactly
`maxApps` times. -/
theorem claim_C4_rate_governor :
    (∀ (now maxApps : Nat) (log : List AppRecord) (job : Job) (jid : String),
      job.id = some jid → log.any (fun a => decide (a.id = jid)) = true →
      track_application now maxApps (.valid log) job = (false, .valid log)) ∧
    (∀ (now maxApps : Nat) (log : List AppRecord) (job : Job) (jid : String),
      job.id = some jid → log.any (fun a => decide (a.id = jid)) = false →
      (∀ a ∈ log, (a.date).isSome) → maxApps ≤ countToday now log →
      track_application now maxApps (.valid log) job = (false, .valid log)) ∧
    (∀ (now maxApps : Nat) (log : List AppRecord) (job : Job) (jid t c lo u : String),
      job.id = some jid → job.title = some t → job.company = some c →
      job.location = some lo → job.url = some u →
      log.any (fun a => decide (a.id = jid)) = false →
      (∀ a ∈ log, (a.date).isSome) → countToday now log < maxApps →
      track_application now maxApps (.valid log) job =
        (true, .valid (log ++ [mkAppRecord job now]))) ∧
    (∀ (now maxApps : Nat) (file : FSFile (List AppRecord)) (job : Job) (jid : String),
      job.id = some jid → (track_application now maxApps file job).1 = true →
      (track_application now maxApps
        (track_application now maxApps file job).2 job).1 = false) ∧
    (∀ (now maxApps : Nat) (js : List Job),
      (∀ j ∈ js, WFJob j) → ((js.map Job.id).Nodup) → js.length = maxApps + 1 →
      (run_track now maxApps (.valid []) js).1.count true = maxApps) := by
  refine ⟨track_dup, track_ceiling, track_append, ?_, ?_⟩
  · intro now maxApps file job jid hjid htrue
    rcases track_true_valid now maxApps file job htrue with ⟨apps, happs⟩
    have hdup : (apps ++ [mkAppRecord job now]).any
        (fun a => decide (a.id = jid)) = true := by
      rw [List.any_append]
      simp [mkAppRecord, hjid]
    rw [happs, track_dup now maxApps (apps ++ [mkAppRecord job now]) job jid hjid hdup]
  · intro now maxApps js hwf hnd hlen
    have h := run_track_count now maxApps js [] (by simp) hwf hnd (by simp)
    rw [h, hlen]
    simp

/-- A second well-formed job with a distinct id. -/
def exJob2 : Job :=
  { exJob with id := some "j2" }

/-- A job dict without the `'id'` key. -/
def exJobNoId : Job :=
  { exJob with id := none }

/-- A log record whose stored date string does not parse. -/
def badDateRec : AppRecord :=
  { mkAppRecord exJob 0 with date := none }

/-- C4 witness: the dup, ceiling, append, called-twice and
distinct-ids-count behaviours at concrete inputs (ceiling 0 for the
limit case, ceiling 1 for the exact count). -/
theorem claim_C4_rate_governor_witness :
    exJob.id = some "j1" ∧
    ([mkAppRecord exJob 0].any (fun a => decide (a.id = "j1")) = true ∧
      track_application 0 10 (.valid [mkAppRecord exJob 0]) exJob =
        (false, .valid [mkAppRecord exJob 0])) ∧
    (0 ≤ countToday 0 ([] : List AppRecord) ∧
      track_application 0 0 (.valid []) exJob = (false, .valid [])) ∧
    (countToday 0 ([] : List AppRecord) < 10 ∧
      track_application 0 10 (.valid []) exJob =
        (true, .valid ([] ++ [mkAppRecord exJob 0]))) ∧
    ((track_application 0 10 (.valid []) exJob).1 = true ∧
      (track_application 0 10 (track_application 0 10 (.valid []) exJob).2 exJob).1 =
        false) ∧
    (([exJob, exJob2].map Job.id).Nodup ∧
      (run_track 0 1 (.valid []) [exJob, exJob2]).1.count true = 1) := by
  have hdup : [mkAppRecord exJob 0].any (fun a => decide (a.id = "j1")) = true := by
    simp [mkAppRecord, exJob]
  have htrue : (track_application 0 10 (.valid []) exJob).1 = true := by
    rw [claim_C4_rate_governor.2.2.1 0 10 [] exJob "j1" "Dev" "Acme" "Remote"
      "https://x" rfl rfl rfl rfl rfl rfl (by simp) (by simp [countToday])]
  refine ⟨rfl, ⟨hdup, ?_⟩, ⟨Nat.zero_le _, ?_⟩, ⟨by simp [countToday], ?_⟩,
    ⟨htrue, ?_⟩, ⟨by simp [exJob, exJob2], ?_⟩⟩
  · exact claim_C4_rate_governor.1 0 10 [mkAppRecord exJob 0] exJob "j1" rfl hdup
  · exact claim_C4_rate_governor.2.1 0 0 [] exJob "j1" rfl rfl (by simp)
      (Nat.zero_le _)
  · exact claim_C4_rate_governor.2.2.1 0 10 [] exJob "j1" "Dev" "Acme" "Remote"
      "https://x" rfl rfl rfl rfl rfl rfl (by simp) (by simp [countToday])
  · exact claim_C4_rate_governor.2.2.2.1 0 10 (.valid []) exJob "j1" rfl htrue
  · exact claim_C4_rate_governor.2.2.2.2 0 1 [exJob, exJob2]
      (by simp [WFJob, exJob, exJob2]) (by simp [exJob, exJob2]) rfl

/-- C10 counterexample: on a malformed (JSON-undecodable) applications
file, `track_application` does not report the storage failure as
`False` — the decode error is swallowed, the log is treated as empty,
and the call succeeds, returning `True` and overwriting the corrupt
file with a one-record log. -/
theorem claim_C10_counterexample :
    (track_application 0 10 .corrupt exJob).1 = true ∧
    (track_application 0 10 .corrupt exJob).2 = .valid [mkAppRecord exJob 0] := by
  constructor <;> rfl

/-- C10 amended: `track_application` never propagates an exception —
the catch-all turns every internal error (unreadable file, job dict
missing the id key, a log record whose date does not parse) into the
boolean `False` with the file unchanged, indistinguishable from a
policy rejection; the one storage failure not reported as `False` is a
JSON-undecodable file, which is silently treated as an empty log so
the call proceeds exactly as on an absent file. -/
theorem claim_C10_exceptions_as_false :
    (∀ (now maxApps : Nat) (file : FSFile (List AppRecord)) (job : Job) (e : String),
      trackInner now maxApps file job = .error e →
      track_application now maxApps file job = (false, file)) ∧
    (∀ (now maxApps : Nat) (job : Job),
      track_application now maxApps .unreadable job = (false, .unreadable)) ∧
    (∀ (now maxApps : Nat) (file : FSFile (List AppRecord)) (job : Job),
      job.id = none → track_application now maxApps file job = (false, file)) ∧
    (∀ (now maxApps : Nat) (log : List AppRecord) (job : Job) (jid : String),
      job.id = some jid → log.any (fun a => decide (a.id = jid)) = false →
      (∃ a ∈ log, a.date = none) →
      track_application now maxApps (.valid log) job = (false, .valid log)) ∧
    (∀ (now maxApps : Nat) (job : Job),
      (track_application now maxApps .corrupt job).1 =
        (track_application now maxApps .absent job).1) := by
  refine ⟨?_, ?_, ?_, ?_, ?_⟩
  · intro now maxApps file job e h
    rw [track_application, h]
  · intro now maxApps job
    rfl
  · intro now maxApps file job hid
    cases file <;> simp [track_application, trackInner, trackInner.trackLoaded, hid]
  · intro now maxApps log job jid hid hdup hbad
    rcases today_count_loop_error now log hbad 0 with ⟨e, he⟩
    simp [track_application, trackInner, trackInner.trackLoaded, hid, hdup, he]
  · intro now maxApps job
    cases hid : job.id <;> cases ht : job.title <;> cases hc : job.company <;>
      cases hlo : job.location <;> cases hu : job.url <;>
      by_cases hceil : maxApps ≤ 0 <;>
      simp [track_application, trackInner, trackInner.trackLoaded, today_count_loop,
        hid, ht, hc, hlo, hu, hceil]

/-- C10 amended witness: concrete unreadable-file, missing-id,
bad-date and corrupt-equals-absent instances. -/
theorem claim_C10_exceptions_as_false_witness :
    (trackInner 0 10 .unreadable exJob = .error "IOError" ∧
      track_application 0 10 .unreadable exJob = (false, .unreadable)) ∧
    (exJobNoId.id = none ∧
      track_application 0 10 (.valid []) exJobNoId = (false, .valid [])) ∧
    ([badDateRec].any (fun a => decide (a.id = "j2")) = false ∧
      track_application 0 10 (.valid [badDateRec]) exJob2 =
        (false, .valid [badDateRec])) ∧
    (track_application 0 10 .corrupt exJob).1 =
      (track_application 0 10 .absent exJob).1 := by
  refine ⟨⟨rfl, ?_⟩, ⟨rfl, ?_⟩, ⟨?_, ?_⟩, ?_⟩
  · exact claim_C10_exceptions_as_false.2.1 0 10 exJob
  · exact claim_C10_exceptions_as_false.2.2.1 0 10 (.valid []) exJobNoId rfl
  · simp [badDateRec, mkAppRecord, exJob]
  · exact claim_C10_exceptions_as_false.2.2.2.1 0 10 [badDateRec] exJob2 "j2" rfl
      (by simp [badDateRec, mkAppRecord, exJob]) ⟨badDateRec, by simp, rfl⟩
  · exact claim_C10_exceptions_as_false.2.2.2.2 0 10 exJob

end JobAgent
